import Mathlib

/-!
# Text marshalling of `Nullable[T]`

A shallow embedding of `nullable/textMarshal.go`: the two methods
`Nullable[T].MarshalText` and `(*Nullable[T]).UnmarshalText` and their helpers
`marshalTextInt`, `marshalTextFloat`, `marshalTextBool`, `unmarshalTextBool`,
`unmarshalTextFloat`, `unmarshalTextInt`.

* A Go `[]byte` or `string` is a `List UInt8`.
* A Go `error` result is an `Option GoError` (`none` is `nil`).
* A method with a pointer receiver returns the updated container next to its
  error.
* Signed machine integers are `Int`; the values of a type of width `w` are
  the integers satisfying `InRange w`, and conversions that can wrap are
  written with an explicit reduction modulo `2 ^ w`.
* A concrete type parameter `T` is a `Kind`; a type switch on
  `any(n.Value)` is a match on the kind, and a type assertion to
  `encoding.TextMarshaler` or `encoding.TextUnmarshaler` succeeds when the kind
  carries the method.
* When `T` is an interface type (such as `any`) the held value is an
  `IfaceValue`, nil or a value of a concrete kind, and the assertions and type
  switches go by that dynamic type; a failed type assertion without `ok` is a
  panic (`Outcome.panicked`).
* The integer routines of the Go standard library that the file calls
  (`strconv.ParseInt`, `strconv.FormatInt`) are modelled below; the
  floating-point routines are parameters (`Runtime`).
-/

/-- The bytes of an ASCII string literal, as Go's `[]byte("...")` gives them. -/
def String.goBytes (s : String) : List UInt8 :=
  s.data.map fun c => UInt8.ofNat c.toNat

namespace nullable

/-- A Go byte slice or string. -/
abbrev Bytes := List UInt8

/-! ## Errors -/

/-- The causes a `strconv.NumError` can carry: the sentinel errors
`strconv.ErrSyntax` and `strconv.ErrRange`, and the "invalid bit size" error. -/
inductive StrconvErr where
  | ErrSyntax
  | ErrRange
  | ErrBitSize (bitSize : Nat)
  deriving DecidableEq, Repr

/-- The record `strconv.NumError`: the failing function, the input, the cause. -/
structure NumError where
  Func : Bytes
  Num : Bytes
  Err : StrconvErr
  deriving DecidableEq, Repr

/-- The Go error values this file produces or passes on. -/
inductive GoError where
  /-- An error made by `errors.New(msg)`, or by `fmt.Errorf` without `%w`:
  its `Error()` text is `msg`. -/
  | errorsNew (msg : Bytes)
  /-- A `*strconv.NumError`. -/
  | numError (e : NumError)
  /-- An error made by `fmt.Errorf(msg ++ "%w", wrapped)`. -/
  | fmtErrorfW (msg : Bytes) (wrapped : GoError)
  deriving DecidableEq, Repr

/-! ## Machine integers -/

/-- Conversion of an integer to the signed type of width `w` (two's
complement wrap-around), e.g. `int8(n)` is `wrapSigned 8 n`. -/
def wrapSigned (w : Nat) (n : Int) : Int :=
  (n + 2 ^ (w - 1)) % 2 ^ w - 2 ^ (w - 1)

/-- Conversion of an integer to `uint64`. -/
def toUint64 (n : Int) : Nat :=
  (n % 2 ^ 64).toNat

/-- The values of the signed type of width `w`. -/
def InRange (w : Nat) (v : Int) : Prop :=
  -(2 : Int) ^ (w - 1) ≤ v ∧ v ≤ 2 ^ (w - 1) - 1

instance (w : Nat) (v : Int) : Decidable (InRange w v) := by
  unfold InRange; exact inferInstance

/-! ## `strconv.ParseUint`, `strconv.ParseInt`, `strconv.FormatInt` (base 10) -/

/-- Modelled from the spec: the constant `maxUint64` of strconv (Go standard
library, not under src/). -/
def maxUint64 : Nat := 2 ^ 64 - 1

/-- Modelled from the spec: the helper `lower(c)` of strconv (Go standard
library, not under src/): `c | ('x' - 'X')`. -/
def lower (c : UInt8) : UInt8 := c ||| 32

/-- Modelled from the spec: the helper `syntaxError(fn, str)` of strconv (Go
standard library, not under src/). -/
def syntaxError (fn str : Bytes) : NumError := ⟨fn, str, StrconvErr.ErrSyntax⟩

/-- Modelled from the spec: the helper `rangeError(fn, str)` of strconv (Go
standard library, not under src/). -/
def rangeError (fn str : Bytes) : NumError := ⟨fn, str, StrconvErr.ErrRange⟩

/-- Modelled from the spec: the function name strconv (Go standard library,
not under src/) reports in the errors of `ParseUint`. -/
def fnParseUint : Bytes := "ParseUint".goBytes

/-- Modelled from the spec: the function name strconv (Go standard library,
not under src/) reports in the errors of `ParseInt`. -/
def fnParseInt : Bytes := "ParseInt".goBytes

/-- Modelled from the spec: the helper `bitSizeError(fn, str, bitSize)` of
strconv (Go standard library, not under src/). -/
def bitSizeError (fn str : Bytes) (bitSize : Nat) : NumError :=
  ⟨fn, str, StrconvErr.ErrBitSize bitSize⟩

/-- Modelled from the spec: `strconv.ParseUint` is Go standard library code,
not under src/; the spec says "parse as base-10 ... integer constrained to the
bit width". This is the digit loop of `ParseUint` for base 10 (the only base
the file passes): `s0` is the whole input (for error reports), `maxVal` the
largest value of the bit size, the list the bytes still to read and `n` the
`uint64` accumulator. A byte that is no digit or letter, or whose digit value
is not below the base, is a syntax error; the loop stops with a range error as
soon as the accumulator would pass `maxVal`. -/
def parseUintLoop (s0 : Bytes) (maxVal : Nat) : Bytes → Nat → Nat × Option NumError
  | [], n => (n, none)
  | c :: cs, n =>
    let digit : Option Nat :=
      if 48 ≤ c.toNat ∧ c.toNat ≤ 57 then some (c.toNat - 48)
      else if 97 ≤ (lower c).toNat ∧ (lower c).toNat ≤ 122 then
        some ((lower c).toNat - 97 + 10)
      else none
    match digit with
    | none => (0, some (syntaxError fnParseUint s0))
    | some d =>
      if d ≥ 10 then
        (0, some (syntaxError fnParseUint s0))
      else if n ≥ maxUint64 / 10 + 1 then
        -- n*base overflows
        (maxVal, some (rangeError fnParseUint s0))
      else
        let n10 := n * 10 % 2 ^ 64
        let n1 := (n10 + d) % 2 ^ 64
        if n1 < n10 ∨ n1 > maxVal then
          -- n+d overflows
          (maxVal, some (rangeError fnParseUint s0))
        else
          parseUintLoop s0 maxVal cs n1

/-- Modelled from the spec: `strconv.ParseUint(s, 10, bitSize)` of the Go
standard library (not under src/), after the library's algorithm: the empty
string is a syntax error, a bit size above 64 is refused, a bit size of 0
stands for `intSize` (`strconv.IntSize`), `maxVal` is `1<<bitSize - 1` in
`uint64`, and the digits are read by `parseUintLoop`. Returns the value and the
error. -/
def ParseUint (intSize : Nat) (s : Bytes) (bitSize : Nat) : Nat × Option NumError :=
  if s = [] then
    (0, some (syntaxError fnParseUint s))
  else if bitSize ≠ 0 ∧ bitSize > 64 then
    (0, some (bitSizeError fnParseUint s bitSize))
  else
    let bitSize := if bitSize = 0 then intSize else bitSize
    let maxVal := (2 ^ bitSize % 2 ^ 64 + 2 ^ 64 - 1) % 2 ^ 64
    parseUintLoop s maxVal s 0

/-- Modelled from the spec: `strconv.ParseInt(s, 10, bitSize)` of the Go
standard library (not under src/); the spec says "parse as base-10 signed
integer constrained to the bit width ... fail ... if the text is not a valid
integer or is out of range for that width". The sign is picked off, the rest
is read by `ParseUint`, and the magnitude is checked against
`2 ^ (bitSize - 1)`. Returns the `int64` value and the error. -/
def ParseInt (intSize : Nat) (s : Bytes) (bitSize : Nat) : Int × Option NumError :=
  match s with
  | [] => (0, some (syntaxError fnParseInt s))
  | c :: rest =>
    let s0 := s
    let neg := decide (c = 45)
    let s1 := if c = 43 then rest else if c = 45 then rest else s
    let r := ParseUint intSize s1 bitSize
    let un := r.1
    let stop : Option NumError :=
      match r.2 with
      | some e => if e.Err ≠ StrconvErr.ErrRange then some ⟨fnParseInt, s0, e.Err⟩ else none
      | none => none
    match stop with
    | some e => (0, some e)
    | none =>
      let bitSize := if bitSize = 0 then intSize else bitSize
      let cutoff := 2 ^ (bitSize - 1) % 2 ^ 64
      if !neg && decide (un ≥ cutoff) then
        (wrapSigned 64 (cutoff - 1 : Nat), some (rangeError fnParseInt s0))
      else if neg && decide (un > cutoff) then
        (wrapSigned 64 (-(wrapSigned 64 cutoff)), some (rangeError fnParseInt s0))
      else
        let n := wrapSigned 64 un
        (if neg then wrapSigned 64 (-n) else n, none)

/-- Modelled from the spec: the digit loop of `strconv.FormatInt` (Go standard
library, not under src/) for base 10: while `u >= 10` the digit `u % 10` is
written in front of the buffer `a` and `u` is divided by 10; the last digit is
`u` itself. The library's base-10 loop takes the digits two at a time from a
table and writes the same bytes; this is its loop for a general base, at base
10. The first argument bounds the number of digits written by the length of
the buffer (64 bytes besides the sign). -/
def formatBits : Nat → Nat → Bytes → Bytes
  | 0, _, a => a
  | fuel + 1, u, a =>
    if u ≥ 10 then
      formatBits fuel (u / 10) (UInt8.ofNat (48 + u % 10) :: a)
    else
      UInt8.ofNat (48 + u) :: a

/-- Modelled from the spec: the helper `small(i)` of strconv (Go standard
library, not under src/), the text of an integer `0 <= i < 100`: one digit
below 10, else the two digits of `i`. -/
def small (i : Nat) : Bytes :=
  if i < 10 then
    [UInt8.ofNat (48 + i)]
  else
    [UInt8.ofNat (48 + i / 10), UInt8.ofNat (48 + i % 10)]

/-- Modelled from the spec: `strconv.FormatInt(i, 10)` of the Go standard
library (not under src/); the spec says "the minimal decimal textual form (no
leading zeros, leading `-` for negative, base 10)". After the library's
algorithm: an integer `0 <= i < 100` is written by `small`; otherwise the
`int64` argument is converted to `uint64`, negated (in `uint64`) when it is
negative, written in decimal by `formatBits`, and given the sign. -/
def FormatInt (i : Int) : Bytes :=
  if 0 ≤ i ∧ i < 100 then
    small i.toNat
  else
    let neg := decide (i < 0)
    let u := toUint64 i
    let u := if neg then (2 ^ 64 - u) % 2 ^ 64 else u
    let a := formatBits 64 u []
    if neg then 45 :: a else a

/-! ## The container and its kinds -/

/-- A `float32` value, by its IEEE 754 bits. -/
structure float32 where
  bits : UInt32
  deriving DecidableEq, Repr

/-- A `float64` value, by its IEEE 754 bits. -/
structure float64 where
  bits : UInt64
  deriving DecidableEq, Repr

/-- What the Go toolchain and standard library supply and this development
leaves open: the width of `int`, and the floating-point conversions. -/
structure Runtime where
  /-- The constant `strconv.IntSize`, the width of `int`. -/
  IntSize : Nat
  /-- Go's `int` is 32 or 64 bits wide. -/
  IntSize_ok : IntSize = 32 ∨ IntSize = 64
  /-- The function `strconv.ParseFloat(s, bitSize)`. -/
  ParseFloat : Bytes → Nat → float64 × Option NumError
  /-- The function `strconv.FormatFloat(v, 'f', -1, 64)`. -/
  FormatFloat : float64 → Bytes
  /-- The conversion `float32(x)` of a `float64`. -/
  toFloat32 : float64 → float32
  /-- The conversion `float64(x)` of a `float32`. -/
  toFloat64 : float32 → float64

/-- A 64-bit platform for the worked examples. No example below reaches the
floating-point routines; they are given constant values here. -/
def runtime64 : Runtime where
  IntSize := 64
  IntSize_ok := Or.inr rfl
  ParseFloat := fun _ _ => (⟨0⟩, none)
  FormatFloat := fun _ => []
  toFloat32 := fun _ => ⟨0⟩
  toFloat64 := fun _ => ⟨0⟩

/-- A type parameter `T` that is none of the built-in scalar types: the name
`%T` prints, the values, and the methods `MarshalText` (on `T`) and
`UnmarshalText` (on `*T`) when the type has them, which is when it satisfies
`encoding.TextMarshaler`, respectively `encoding.TextUnmarshaler`. -/
structure UserType where
  name : Bytes
  carrier : Type
  MarshalText : Option (carrier → Bytes × Option GoError)
  UnmarshalText : Option (Bytes → carrier → carrier × Option GoError)

/-- The signed integer types the type switches name. -/
inductive IntKind where
  | int
  | int8
  | int16
  | int32
  | int64
  deriving DecidableEq, Repr

/-- The floating-point types the type switches name. -/
inductive FloatKind where
  | float32
  | float64
  deriving DecidableEq, Repr

/-- The type parameter `T` of `Nullable[T]` when it is a concrete type (any
type that is not an interface type), as the type switches see it: the dynamic
type of `any(n.Value)` is then `T` itself. An interface type for `T` is
treated apart, by `IfaceValue`, `NullableIface`, `MarshalTextIface` and
`UnmarshalTextIface`. -/
inductive Kind where
  | bool
  | sint (i : IntKind)
  | float (f : FloatKind)
  | other (u : UserType)

/-- The values of a float kind. -/
@[reducible] def FloatKind.Carrier : FloatKind → Type
  | .float32 => nullable.float32
  | .float64 => nullable.float64

/-- The values of a kind. -/
@[reducible] def Kind.Carrier : Kind → Type
  | .bool => Bool
  | .sint _ => Int
  | .float f => f.Carrier
  | .other u => u.carrier

/-- Modelled from the spec: the declaration of the container `Nullable[T]` is
not under src/; textMarshal.go uses its two fields `HasValue` and `Value`, the
spec's "`present`: boolean flag" and "`value`: a slot holding a scalar of one
fixed kind per instantiation". -/
structure Nullable (k : Kind) where
  HasValue : Bool
  Value : k.Carrier

instance (k : Kind) [DecidableEq k.Carrier] : DecidableEq (Nullable k) := fun a b =>
  match a, b with
  | ⟨h1, v1⟩, ⟨h2, v2⟩ =>
    if hh : h1 = h2 then
      if hv : v1 = v2 then isTrue (by rw [hh, hv])
      else isFalse (fun h => hv (congrArg Nullable.Value h))
    else isFalse (fun h => hh (congrArg Nullable.HasValue h))

/-- The width of an integer kind's values: `int` has the platform's width. -/
def IntKind.bits (R : Runtime) : IntKind → Nat
  | .int => R.IntSize
  | .int8 => 8
  | .int16 => 16
  | .int32 => 32
  | .int64 => 64

/-- The name `%T` prints for a kind. -/
def Kind.typeName : Kind → Bytes
  | .bool => "bool".goBytes
  | .sint .int => "int".goBytes
  | .sint .int8 => "int8".goBytes
  | .sint .int16 => "int16".goBytes
  | .sint .int32 => "int32".goBytes
  | .sint .int64 => "int64".goBytes
  | .float .float32 => "float32".goBytes
  | .float .float64 => "float64".goBytes
  | .other u => u.name

/-- The method `MarshalText` of the value type, when `T` satisfies
`encoding.TextMarshaler`: the built-in types have no methods. -/
def Kind.textMarshaler : (k : Kind) → Option (k.Carrier → Bytes × Option GoError)
  | .other u => u.MarshalText
  | _ => none

/-- The method `UnmarshalText` of the pointer type, when `*T` satisfies
`encoding.TextUnmarshaler`: the built-in types have no methods. -/
def Kind.textUnmarshaler : (k : Kind) → Option (Bytes → k.Carrier → k.Carrier × Option GoError)
  | .other u => u.UnmarshalText
  | _ => none

/-! ## Marshalling -/

/-- The function `marshalTextInt`: the value is widened to `int64` and written
in base 10. -/
def marshalTextInt (k : Kind) (f : Nullable k) : Bytes × Option GoError :=
  if !f.HasValue then
    ([], none)
  else
    let value : Int :=
      match k, f with
      | .sint .int, f => f.Value
      | .sint .int8, f => f.Value
      | .sint .int16, f => f.Value
      | .sint .int32, f => f.Value
      | .sint .int64, f => f.Value
      | _, _ => 0
    (FormatInt value, none)

/-- The function `marshalTextFloat`: the value is widened to `float64` and
written by `strconv.FormatFloat(value, 'f', -1, 64)`. -/
def marshalTextFloat (R : Runtime) (k : Kind) (f : Nullable k) : Bytes × Option GoError :=
  if !f.HasValue then
    ([], none)
  else
    let value : float64 :=
      match k, f with
      | .float .float32, f => R.toFloat64 f.Value
      | .float .float64, f => f.Value
      | _, _ => ⟨0⟩
    (R.FormatFloat value, none)

/-- The function `marshalTextBool`. -/
def marshalTextBool (b : Nullable .bool) : Bytes × Option GoError :=
  if !b.HasValue then
    ([], none)
  else if !b.Value then
    ("false".goBytes, none)
  else
    ("true".goBytes, none)

/-- The method `Nullable[T].MarshalText` at a concrete `T`: empty text when
there is no value; else the value's own `MarshalText` when it has one; else
the built-in rule of the type switch; else an error naming the type. -/
def MarshalText (R : Runtime) (k : Kind) (n : Nullable k) : Bytes × Option GoError :=
  if !n.HasValue then
    ([], none)
  else
    match k.textMarshaler with
    | some txt => txt n.Value
    | none =>
      match k, n with
      | .float f, n => marshalTextFloat R (.float f) n
      | .bool, n => marshalTextBool n
      | .sint i, n => marshalTextInt (.sint i) n
      | .other u, _ =>
        ([], some (.errorsNew
          ("type ".goBytes ++ (Kind.other u).typeName ++ " cannot be marshalled to text".goBytes)))

/-! ## Unmarshalling -/

/-- The function `unmarshalTextBool`. -/
def unmarshalTextBool (text : Bytes) (b : Nullable .bool) : Nullable .bool × Option GoError :=
  let str := text
  if str = [] ∨ str = "null".goBytes then
    ({ b with HasValue := false }, none)
  else if str = "true".goBytes then
    ({ HasValue := true, Value := true }, none)
  else if str = "false".goBytes then
    ({ HasValue := true, Value := false }, none)
  else
    (b, some (.errorsNew ("null: invalid input for UnmarshalText:".goBytes ++ str)))

/-- The function `unmarshalTextFloat`. -/
def unmarshalTextFloat (R : Runtime) (k : Kind) (text : Bytes) (f : Nullable k) :
    Nullable k × Option GoError :=
  let str := text
  if str = [] ∨ str = "null".goBytes then
    ({ f with HasValue := false }, none)
  else
    let size : Nat :=
      match k with
      | .float .float32 => 32
      | .float .float64 => 64
      | _ => 0
    let r := R.ParseFloat text size
    match r.2 with
    | some err =>
      (f, some (.fmtErrorfW "null: couldn't unmarshal text: ".goBytes (.numError err)))
    | none =>
      let n := r.1
      let f1 : Nullable k :=
        match k, f with
        | .float .float32, f => { f with Value := R.toFloat32 n }
        | .float .float64, f => { f with Value := n }
        | _, f => f
      ({ f1 with HasValue := true }, none)

/-- The function `unmarshalTextInt`: the bit size handed to `strconv.ParseInt`
is 8, 16, 32 or 64 by the kind (32 for `int`), the parsed `int64` is converted
to the kind. -/
def unmarshalTextInt (R : Runtime) (k : Kind) (text : Bytes) (f : Nullable k) :
    Nullable k × Option GoError :=
  let str := text
  if str = [] ∨ str = "null".goBytes then
    ({ f with HasValue := false }, none)
  else
    let size : Nat :=
      match k with
      | .sint .int8 => 8
      | .sint .int16 => 16
      | .sint .int32 => 32
      | .sint .int => 32
      | .sint .int64 => 64
      | _ => 0
    let r := ParseInt R.IntSize str size
    match r.2 with
    | some err =>
      (f, some (.fmtErrorfW "null: couldn't unmarshal text: ".goBytes (.numError err)))
    | none =>
      let n := r.1
      let f1 : Nullable k :=
        match k, f with
        | .sint .int8, f => { f with Value := wrapSigned 8 n }
        | .sint .int16, f => { f with Value := wrapSigned 16 n }
        | .sint .int32, f => { f with Value := wrapSigned 32 n }
        | .sint .int, f => { f with Value := wrapSigned R.IntSize n }
        | .sint .int64, f => { f with Value := n }
        | _, f => f
      ({ f1 with HasValue := true }, none)

/-- The method `(*Nullable[T]).UnmarshalText` at a concrete `T`: the value's
own `UnmarshalText` when the pointer to it has one (it works on the `Value`
field alone); else the built-in rule of the type switch; else an error naming
the type. The result is the container after the call and the error. -/
def UnmarshalText (R : Runtime) (k : Kind) (n : Nullable k) (text : Bytes) :
    Nullable k × Option GoError :=
  match k.textUnmarshaler with
  | some txt =>
    let r := txt text n.Value
    ({ n with Value := r.1 }, r.2)
  | none =>
    match k, n with
    | .bool, n => unmarshalTextBool text n
    | .float f, n => unmarshalTextFloat R (.float f) text n
    | .sint i, n => unmarshalTextInt R (.sint i) text n
    | .other u, n =>
      (n, some (.errorsNew ("type ".goBytes ++ (Kind.other u).typeName ++ " unmarshal".goBytes)))

/-! ## The two methods at an interface type -/

/-- The byte is a decimal digit, `'0'` to `'9'`. -/
def IsDigit (c : UInt8) : Prop := 48 ≤ c.toNat ∧ c.toNat ≤ 57

instance (c : UInt8) : Decidable (IsDigit c) := by unfold IsDigit; exact inferInstance

/-- The number read from the digits `ds` in base 10, continuing from `n`. -/
def horner (n : Nat) (ds : Bytes) : Nat := ds.foldl (fun n c => n * 10 + (c.toNat - 48)) n

/-- The number a digit string denotes in base 10. -/
def decimalValue (ds : Bytes) : Nat := horner 0 ds

/-- A non-empty string of decimal digits. -/
def IsDigits (ds : Bytes) : Prop := ds ≠ [] ∧ ∀ c ∈ ds, IsDigit c

instance (ds : Bytes) : Decidable (IsDigits ds) := by unfold IsDigits; exact inferInstance

/-- The text `t` is an optional sign (`+` or `-`) followed by one or more
decimal digits, and denotes the integer `z`. -/
def IsDecimal (t : Bytes) (z : Int) : Prop :=
  ∃ ds, IsDigits ds ∧
    ((t = ds ∧ z = decimalValue ds) ∨ (t = 43 :: ds ∧ z = decimalValue ds) ∨
      (t = 45 :: ds ∧ z = -(decimalValue ds : Int)))

/-- A digit string in minimal form for `u`: "0" for zero, else no leading zero. -/
def IsMinimal (u : Nat) (ds : Bytes) : Prop :=
  (u = 0 → ds = [48]) ∧ (u ≠ 0 → ds.head? ≠ some 48)

/-- The bit sizes `unmarshalTextInt` hands to `strconv.ParseInt`. -/
def IsBitSize (b : Nat) : Prop := b = 8 ∨ b = 16 ∨ b = 32 ∨ b = 64

/-- The bit size `unmarshalTextInt` selects for an integer kind (its first
type switch): the kind's width, and 32 for `int`. -/
def IntKind.parseBits : IntKind → Nat
  | .int8 => 8
  | .int16 => 16
  | .int32 => 32
  | .int => 32
  | .int64 => 64

/-- The text left for `ParseUint` once `ParseInt` has picked off the sign. -/
def unsignedPart (c : UInt8) (rest : Bytes) : Bytes :=
  if c = 43 then rest else if c = 45 then rest else c :: rest

/-- An example of a kind with custom text conversions over an integer
representation, as a Go `type level int` in package `main` with both methods
would be: `MarshalText` writes "low" for 0 and "high" otherwise,
`UnmarshalText` reads these two words and refuses every other text. -/
def levelType : UserType where
  name := "main.level".goBytes
  carrier := Int
  MarshalText := some fun v =>
    if v = 0 then ("low".goBytes, none) else ("high".goBytes, none)
  UnmarshalText := some fun t v =>
    if t = "low".goBytes then (0, none)
    else if t = "high".goBytes then (1, none)
    else (v, some (.errorsNew ("level: unknown word ".goBytes ++ t)))

/-! ## The decimal parser -/

theorem horner_nil (n : Nat) : horner n [] = n := rfl
theorem horner_cons (n : Nat) (c : UInt8) (cs : Bytes) :
    horner n (c :: cs) = horner (n * 10 + (c.toNat - 48)) cs := rfl

theorem le_horner (ds : Bytes) : ∀ n, n ≤ horner n ds := by
  induction ds with
  | nil => intro n; exact Nat.le_refl _
  | cons c cs ih =>
    intro n
    rw [horner_cons]
    have := ih (n * 10 + (c.toNat - 48))
    omega

theorem parseUintLoop_cons_nondigit (s0 : Bytes) (maxVal : Nat) (c : UInt8) (cs : Bytes) (n : Nat)
    (h : ¬ IsDigit c) :
    parseUintLoop s0 maxVal (c :: cs) n = (0, some (syntaxError fnParseUint s0)) := by
  unfold IsDigit at h
  simp only [parseUintLoop, h, if_false]
  by_cases h1 : 97 ≤ (lower c).toNat ∧ (lower c).toNat ≤ 122
  · have h2 : (lower c).toNat - 97 + 10 ≥ 10 := by omega
    simp only [h1, and_self, if_true, h2]
  · simp only [h1, if_false]

theorem parseUintLoop_cons_digit (s0 : Bytes) (maxVal : Nat) (c : UInt8) (cs : Bytes) (n : Nat)
    (h : IsDigit c) :
    parseUintLoop s0 maxVal (c :: cs) n =
      if n ≥ maxUint64 / 10 + 1 then (maxVal, some (rangeError fnParseUint s0))
      else if (n * 10 % 2 ^ 64 + (c.toNat - 48)) % 2 ^ 64 < n * 10 % 2 ^ 64 ∨
          (n * 10 % 2 ^ 64 + (c.toNat - 48)) % 2 ^ 64 > maxVal then
        (maxVal, some (rangeError fnParseUint s0))
      else parseUintLoop s0 maxVal cs ((n * 10 % 2 ^ 64 + (c.toNat - 48)) % 2 ^ 64) := by
  have h' := h
  unfold IsDigit at h'
  have hd : ¬ (c.toNat - 48 ≥ 10) := by omega
  simp only [parseUintLoop, h', if_true, hd, if_false, and_self]

theorem parseUintLoop_ok (s0 : Bytes) (maxVal : Nat) (hmax : maxVal < 2 ^ 64) :
    ∀ (ds : Bytes) (n : Nat), (∀ c ∈ ds, IsDigit c) → horner n ds ≤ maxVal →
      parseUintLoop s0 maxVal ds n = (horner n ds, none) := by
  intro ds
  induction ds with
  | nil => intro n _ _; rfl
  | cons c cs ih =>
    intro n hall hle
    have hc : IsDigit c := hall c (List.mem_cons_self _ _)
    have hcs : ∀ x ∈ cs, IsDigit x := fun x hx => hall x (List.mem_cons_of_mem _ hx)
    rw [horner_cons] at hle ⊢
    have hge := le_horner cs (n * 10 + (c.toNat - 48))
    have hc' := hc
    unfold IsDigit at hc'
    have e1 : n * 10 % 2 ^ 64 = n * 10 := Nat.mod_eq_of_lt (by omega)
    have e2 : (n * 10 + (c.toNat - 48)) % 2 ^ 64 = n * 10 + (c.toNat - 48) :=
      Nat.mod_eq_of_lt (by omega)
    rw [parseUintLoop_cons_digit s0 maxVal c cs n hc, e1, e2]
    have h1 : ¬ (n ≥ maxUint64 / 10 + 1) := by
      simp only [maxUint64]; omega
    have h2 : ¬ (n * 10 + (c.toNat - 48) < n * 10 ∨ n * 10 + (c.toNat - 48) > maxVal) := by
      omega
    rw [if_neg h1, if_neg h2]
    exact ih _ hcs hle

theorem parseUintLoop_err (s0 : Bytes) (maxVal : Nat) :
    ∀ (ds : Bytes) (n : Nat), n ≤ maxVal →
      ¬ ((∀ c ∈ ds, IsDigit c) ∧ horner n ds ≤ maxVal) →
      parseUintLoop s0 maxVal ds n = (0, some (syntaxError fnParseUint s0)) ∨
        parseUintLoop s0 maxVal ds n = (maxVal, some (rangeError fnParseUint s0)) := by
  intro ds
  induction ds with
  | nil =>
    intro n hn h
    exact absurd ⟨fun _ hc => absurd hc (List.not_mem_nil _), hn⟩ h
  | cons c cs ih =>
    intro n hn h
    by_cases hc : IsDigit c
    · rw [parseUintLoop_cons_digit s0 maxVal c cs n hc]
      have hge := le_horner cs (n * 10 + (c.toNat - 48))
      by_cases h1 : n ≥ maxUint64 / 10 + 1
      · rw [if_pos h1]; exact Or.inr rfl
      · rw [if_neg h1]
        simp only [maxUint64] at h1
        have e1 : n * 10 % 2 ^ 64 = n * 10 := Nat.mod_eq_of_lt (by omega)
        rw [e1]
        by_cases h2 : (n * 10 + (c.toNat - 48)) % 2 ^ 64 < n * 10 ∨
            (n * 10 + (c.toNat - 48)) % 2 ^ 64 > maxVal
        · rw [if_pos h2]; exact Or.inr rfl
        · rw [if_neg h2]
          have hc' := hc
          unfold IsDigit at hc'
          have e2 : (n * 10 + (c.toNat - 48)) % 2 ^ 64 = n * 10 + (c.toNat - 48) := by
            omega
          rw [e2] at h2 ⊢
          apply ih _ (by omega)
          intro hcs
          apply h
          refine ⟨?_, ?_⟩
          · intro x hx
            rcases List.mem_cons.mp hx with rfl | hx
            · exact hc
            · exact hcs.1 x hx
          · rw [horner_cons]; exact hcs.2
    · exact Or.inl (parseUintLoop_cons_nondigit s0 maxVal c cs n hc)

theorem maxVal_eq (b : Nat) (hb : IsBitSize b) :
    (2 ^ b % 2 ^ 64 + 2 ^ 64 - 1) % 2 ^ 64 = 2 ^ b - 1 := by
  rcases hb with rfl | rfl | rfl | rfl <;> norm_num

theorem ParseUint_eq_loop (I : Nat) (s : Bytes) (b : Nat) (hb : IsBitSize b) (hs : s ≠ []) :
    ParseUint I s b = parseUintLoop s (2 ^ b - 1) s 0 := by
  have hb0 : b ≠ 0 := by rcases hb with rfl | rfl | rfl | rfl <;> decide
  have hb64 : ¬ (b ≠ 0 ∧ b > 64) := by rcases hb with rfl | rfl | rfl | rfl <;> decide
  simp only [ParseUint, hs, if_false, hb0, hb64, maxVal_eq b hb]

theorem pow_bitSize_le (b : Nat) (hb : IsBitSize b) : 2 ^ b - 1 < 2 ^ 64 := by
  rcases hb with rfl | rfl | rfl | rfl <;> norm_num

theorem ParseUint_ok (I : Nat) (s : Bytes) (b : Nat) (hb : IsBitSize b)
    (hs : IsDigits s) (hle : decimalValue s ≤ 2 ^ b - 1) :
    ParseUint I s b = (decimalValue s, none) := by
  rw [ParseUint_eq_loop I s b hb hs.1]
  exact parseUintLoop_ok s (2 ^ b - 1) (pow_bitSize_le b hb) s 0 hs.2 hle

theorem ParseUint_err (I : Nat) (s : Bytes) (b : Nat) (hb : IsBitSize b)
    (h : ¬ (IsDigits s ∧ decimalValue s ≤ 2 ^ b - 1)) :
    ParseUint I s b = (0, some (syntaxError fnParseUint s)) ∨
      ParseUint I s b = (2 ^ b - 1, some (rangeError fnParseUint s)) := by
  by_cases hs : s = []
  · left; simp only [ParseUint, hs, if_true]
  · rw [ParseUint_eq_loop I s b hb hs]
    apply parseUintLoop_err s (2 ^ b - 1) s 0 (Nat.zero_le _)
    intro h2
    exact h ⟨⟨hs, h2.1⟩, h2.2⟩

theorem two_pow_pred_lt (b : Nat) (hb : IsBitSize b) : 2 ^ (b - 1) % 2 ^ 64 = 2 ^ (b - 1) := by
  rcases hb with rfl | rfl | rfl | rfl <;> norm_num

theorem two_pow_pred_le (b : Nat) (hb : IsBitSize b) : (2 : Nat) ^ (b - 1) ≤ 2 ^ 63 := by
  rcases hb with rfl | rfl | rfl | rfl <;> norm_num

theorem bitSize_ne_zero (b : Nat) (hb : IsBitSize b) : b ≠ 0 := by
  rcases hb with rfl | rfl | rfl | rfl <;> decide

theorem ParseInt_plus (I : Nat) (c : UInt8) (rest : Bytes) (b m : Nat) (hb : IsBitSize b)
    (hc : c ≠ 45) (hr : ParseUint I (unsignedPart c rest) b = (m, none))
    (hm : m < 2 ^ (b - 1)) :
    ParseInt I (c :: rest) b = ((m : Int), none) := by
  have hb0 := bitSize_ne_zero b hb
  have h2 := two_pow_pred_le b hb
  have h1 : ¬ (m ≥ 2 ^ (b - 1)) := by omega
  unfold unsignedPart at hr
  simp only [hc, if_false] at hr
  simp only [ParseInt, hc, decide_False, hb0, if_false, two_pow_pred_lt b hb, hr, h1,
    Bool.not_false, Bool.true_and, Bool.false_and, decide_False, Bool.false_eq_true]
  unfold wrapSigned
  norm_num
  omega

theorem ParseInt_minus (I : Nat) (rest : Bytes) (b m : Nat) (hb : IsBitSize b)
    (hr : ParseUint I rest b = (m, none))
    (hm : m ≤ 2 ^ (b - 1)) :
    ParseInt I (45 :: rest) b = (-(m : Int), none) := by
  have hb0 := bitSize_ne_zero b hb
  have h2 := two_pow_pred_le b hb
  have h1 : ¬ (m > 2 ^ (b - 1)) := by omega
  have h43 : ¬ ((45 : UInt8) = 43) := by decide
  simp only [ParseInt, decide_True, hb0, if_false, if_true, two_pow_pred_lt b hb, hr, h1, h43,
    Bool.not_true, Bool.true_and, Bool.false_and, decide_False, Bool.false_eq_true]
  unfold wrapSigned
  norm_num
  omega

theorem ParseInt_of_syntaxError (I : Nat) (c : UInt8) (rest : Bytes) (b : Nat)
    (hr : ParseUint I (unsignedPart c rest) b =
      (0, some (syntaxError fnParseUint (unsignedPart c rest)))) :
    (ParseInt I (c :: rest) b).2 ≠ none := by
  unfold unsignedPart at hr
  simp only [ParseInt]
  rw [hr]
  simp [syntaxError]

theorem ParseInt_of_rangeError (I : Nat) (c : UInt8) (rest : Bytes) (b : Nat) (hb : IsBitSize b)
    (hr : ParseUint I (unsignedPart c rest) b =
      (2 ^ b - 1, some (rangeError fnParseUint (unsignedPart c rest)))) :
    (ParseInt I (c :: rest) b).2 ≠ none := by
  have hb0 := bitSize_ne_zero b hb
  unfold unsignedPart at hr
  simp only [ParseInt]
  rw [hr]
  simp only [rangeError, ne_eq, not_true_eq_false, if_false, hb0, two_pow_pred_lt b hb]
  by_cases hc : c = 45
  · have h1 : 2 ^ b - 1 > 2 ^ (b - 1) := by
      rcases hb with rfl | rfl | rfl | rfl <;> norm_num
    simp [hc, h1]
  · have h1 : 2 ^ b - 1 ≥ 2 ^ (b - 1) := by
      rcases hb with rfl | rfl | rfl | rfl <;> norm_num
    simp [hc, h1]

theorem ParseInt_of_large (I : Nat) (c : UInt8) (rest : Bytes) (b m : Nat) (hb : IsBitSize b)
    (hr : ParseUint I (unsignedPart c rest) b = (m, none))
    (h : (c ≠ 45 ∧ m ≥ 2 ^ (b - 1)) ∨ (c = 45 ∧ m > 2 ^ (b - 1))) :
    (ParseInt I (c :: rest) b).2 ≠ none := by
  have hb0 := bitSize_ne_zero b hb
  unfold unsignedPart at hr
  simp only [ParseInt]
  rw [hr]
  simp only [if_false, hb0, two_pow_pred_lt b hb]
  rcases h with ⟨hc, h1⟩ | ⟨hc, h1⟩
  · simp [hc, h1]
  · simp [hc, h1]

theorem inRange_iff (b : Nat) (z : Int) :
    InRange b z ↔ -((2 ^ (b - 1) : Nat) : Int) ≤ z ∧ z ≤ ((2 ^ (b - 1) : Nat) : Int) - 1 := by
  unfold InRange
  push_cast
  exact Iff.rfl

theorem two_pow_pred_lt_pow (b : Nat) (hb : IsBitSize b) : 2 ^ (b - 1) ≤ 2 ^ b - 1 := by
  rcases hb with rfl | rfl | rfl | rfl <;> norm_num

theorem digit_ne_sign (c : UInt8) (h : IsDigit c) : c ≠ 43 ∧ c ≠ 45 := by
  unfold IsDigit at h
  constructor
  · rintro rfl; revert h; decide
  · rintro rfl; revert h; decide

theorem ParseInt_ok (I : Nat) (t : Bytes) (b : Nat) (z : Int) (hb : IsBitSize b)
    (hd : IsDecimal t z) (hz : InRange b z) : ParseInt I t b = (z, none) := by
  rw [inRange_iff] at hz
  have hp := two_pow_pred_lt_pow b hb
  obtain ⟨ds, hds, h | h | h⟩ := hd
  · obtain ⟨rfl, rfl⟩ := h
    cases t with
    | nil => exact absurd rfl hds.1
    | cons c rest =>
      have hc := digit_ne_sign c (hds.2 c (List.mem_cons_self _ _))
      have hu : unsignedPart c rest = c :: rest := by
        simp only [unsignedPart, hc.1, hc.2, if_false]
      apply ParseInt_plus I c rest b _ hb hc.2
      · rw [hu]; exact ParseUint_ok I _ b hb hds (by omega)
      · omega
  · obtain ⟨rfl, rfl⟩ := h
    have hu : unsignedPart 43 ds = ds := by simp only [unsignedPart, if_true]
    apply ParseInt_plus I 43 ds b _ hb (by decide)
    · rw [hu]; exact ParseUint_ok I _ b hb hds (by omega)
    · omega
  · obtain ⟨rfl, rfl⟩ := h
    apply ParseInt_minus I ds b _ hb
    · exact ParseUint_ok I _ b hb hds (by omega)
    · omega

theorem ParseInt_none (I : Nat) (t : Bytes) (b : Nat) (hb : IsBitSize b)
    (h : (ParseInt I t b).2 = none) : ∃ z, IsDecimal t z ∧ InRange b z := by
  have hpos : 0 < 2 ^ (b - 1) := Nat.pow_pos (by decide)
  cases t with
  | nil => simp [ParseInt] at h
  | cons c rest =>
    by_cases hv : IsDigits (unsignedPart c rest) ∧ decimalValue (unsignedPart c rest) ≤ 2 ^ b - 1
    · have hr := ParseUint_ok I _ b hb hv.1 hv.2
      by_cases hc : c = 45
      · by_cases hm : decimalValue (unsignedPart c rest) > 2 ^ (b - 1)
        · exact absurd h (ParseInt_of_large I c rest b _ hb hr (Or.inr ⟨hc, hm⟩))
        · subst hc
          have hu : unsignedPart 45 rest = rest := by
            simp only [unsignedPart]; rfl
          rw [hu] at hv hm
          refine ⟨-(decimalValue rest : Int), ⟨rest, hv.1, Or.inr (Or.inr ⟨rfl, rfl⟩)⟩, ?_⟩
          rw [inRange_iff]
          omega
      · by_cases hm : decimalValue (unsignedPart c rest) ≥ 2 ^ (b - 1)
        · exact absurd h (ParseInt_of_large I c rest b _ hb hr (Or.inl ⟨hc, hm⟩))
        · by_cases hc2 : c = 43
          · subst hc2
            have hu : unsignedPart 43 rest = rest := by simp only [unsignedPart, if_true]
            rw [hu] at hv hm
            refine ⟨(decimalValue rest : Int), ⟨rest, hv.1, Or.inr (Or.inl ⟨rfl, rfl⟩)⟩, ?_⟩
            rw [inRange_iff]
            omega
          · have hu : unsignedPart c rest = c :: rest := by
              simp only [unsignedPart, hc, hc2, if_false]
            rw [hu] at hv hm
            refine ⟨(decimalValue (c :: rest) : Int), ⟨c :: rest, hv.1, Or.inl ⟨rfl, rfl⟩⟩, ?_⟩
            rw [inRange_iff]
            omega
    · rcases ParseUint_err I _ b hb hv with hr | hr
      · exact absurd h (ParseInt_of_syntaxError I c rest b hr)
      · exact absurd h (ParseInt_of_rangeError I c rest b hb hr)

/-! ## The decimal printer -/

theorem toNat_digitByte (k : Nat) (hk : k < 10) : (UInt8.ofNat (48 + k)).toNat = 48 + k := by
  interval_cases k <;> rfl

theorem horner_append (n : Nat) (xs ys : Bytes) :
    horner n (xs ++ ys) = horner (horner n xs) ys := by
  simp only [horner, List.foldl_append]

theorem formatBits_spec : ∀ (fuel u : Nat) (a : Bytes), u < 10 ^ (fuel + 1) →
    ∃ ds, formatBits (fuel + 1) u a = ds ++ a ∧ IsDigits ds ∧ decimalValue ds = u ∧
      IsMinimal u ds := by
  intro fuel
  induction fuel with
  | zero =>
    intro u a hu
    have hu' : u < 10 := by simpa using hu
    refine ⟨[UInt8.ofNat (48 + u)], ?_, ?_, ?_, ?_⟩
    · simp only [formatBits]
      rw [if_neg (by omega)]
      rfl
    · refine ⟨by simp, ?_⟩
      intro c hc
      rw [List.mem_singleton] at hc
      subst hc
      unfold IsDigit
      rw [toNat_digitByte u hu']
      omega
    · simp only [decimalValue, horner, List.foldl_cons, List.foldl_nil]
      rw [toNat_digitByte u hu']
      omega
    · constructor
      · rintro rfl; rfl
      · intro h0 h
        simp only [List.head?_cons, Option.some.injEq] at h
        have := congrArg UInt8.toNat h
        rw [toNat_digitByte u hu'] at this
        have h48 : (48 : UInt8).toNat = 48 := rfl
        omega
  | succ fuel ih =>
    intro u a hu
    by_cases h10 : u ≥ 10
    · have hq : u / 10 < 10 ^ (fuel + 1) := by
        rw [Nat.div_lt_iff_lt_mul (by decide)]
        calc u < 10 ^ (fuel + 1 + 1) := hu
          _ = 10 ^ (fuel + 1) * 10 := by rw [pow_succ]
      obtain ⟨ds, hfmt, hds, hval, hmin⟩ := ih (u / 10) (UInt8.ofNat (48 + u % 10) :: a) hq
      have hm : u % 10 < 10 := Nat.mod_lt _ (by decide)
      refine ⟨ds ++ [UInt8.ofNat (48 + u % 10)], ?_, ?_, ?_, ?_⟩
      · rw [formatBits, if_pos h10, hfmt]
        simp
      · refine ⟨by simp, ?_⟩
        intro c hc
        rcases List.mem_append.mp hc with hc | hc
        · exact hds.2 c hc
        · rw [List.mem_singleton] at hc
          subst hc
          unfold IsDigit
          rw [toNat_digitByte _ hm]
          omega
      · unfold decimalValue at hval ⊢
        rw [horner_append, hval]
        simp only [horner, List.foldl_cons, List.foldl_nil]
        rw [toNat_digitByte _ hm]
        omega
      · constructor
        · intro h0; omega
        · intro _
          have hq0 : u / 10 ≠ 0 := by omega
          have := hmin.2 hq0
          cases ds with
          | nil => exact absurd rfl hds.1
          | cons d ds' => simpa using this
    · obtain ⟨ds, hfmt, hrest⟩ := ih u a (by
        have : 10 ≤ 10 ^ (fuel + 1) := by
          calc 10 = 10 ^ 1 := by norm_num
            _ ≤ 10 ^ (fuel + 1) := Nat.pow_le_pow_right (by decide) (by omega)
        omega)
      refine ⟨ds, ?_, hrest⟩
      rw [← hfmt]
      simp only [formatBits, if_neg h10]

theorem small_eq_formatBits (u : Nat) (hu : u < 100) : small u = formatBits 64 u [] := by
  unfold small
  by_cases h : u < 10
  · rw [if_pos h]
    simp only [formatBits]
    rw [if_neg (by omega)]
  · rw [if_neg h]
    have hq : ¬ (u / 10 ≥ 10) := by omega
    simp only [formatBits]
    rw [if_pos (by omega), if_neg hq]

theorem magnitude_eq (i : Int) (h : InRange 64 i) :
    (if decide (i < 0) = true then (2 ^ 64 - toUint64 i) % 2 ^ 64 else toUint64 i) = i.natAbs := by
  unfold InRange at h
  unfold toUint64
  norm_num at h ⊢
  split_ifs with hneg <;> omega

theorem FormatInt_spec (i : Int) (h : InRange 64 i) :
    ∃ ds, IsDigits ds ∧ decimalValue ds = i.natAbs ∧ IsMinimal i.natAbs ds ∧
      FormatInt i = if i < 0 then 45 :: ds else ds := by
  have hlt : i.natAbs < 10 ^ (63 + 1) := by
    unfold InRange at h
    norm_num at h ⊢
    omega
  obtain ⟨ds, hfmt, hds, hval, hmin⟩ := formatBits_spec 63 i.natAbs [] hlt
  refine ⟨ds, hds, hval, hmin, ?_⟩
  unfold FormatInt
  by_cases hs : 0 ≤ i ∧ i < 100
  · have hnn : ¬ i < 0 := by omega
    have hnat : i.toNat = i.natAbs := by omega
    rw [if_pos hs, if_neg hnn, hnat, small_eq_formatBits i.natAbs (by omega), hfmt,
      List.append_nil]
  · rw [if_neg hs]
    simp only [magnitude_eq i h, hfmt, List.append_nil]
    by_cases hneg : i < 0 <;> simp [hneg]

theorem FormatInt_isDecimal (i : Int) (h : InRange 64 i) : IsDecimal (FormatInt i) i := by
  obtain ⟨ds, hds, hval, _, hfmt⟩ := FormatInt_spec i h
  refine ⟨ds, hds, ?_⟩
  rw [hfmt, hval]
  by_cases hneg : i < 0
  · right; right
    simp only [hneg, if_true, true_and]
    omega
  · left
    simp only [hneg, if_false, true_and]
    omega

theorem inRange_64_of_bitSize (b : Nat) (hb : IsBitSize b) (i : Int) (h : InRange b i) :
    InRange 64 i := by
  unfold InRange at h ⊢
  rcases hb with rfl | rfl | rfl | rfl <;> norm_num at h ⊢ <;> omega

theorem ParseInt_FormatInt (I : Nat) (b : Nat) (hb : IsBitSize b) (i : Int) (h : InRange b i) :
    ParseInt I (FormatInt i) b = (i, none) :=
  ParseInt_ok I _ b i hb (FormatInt_isDecimal i (inRange_64_of_bitSize b hb i h)) h

/-! ## The container operations -/

theorem parseBits_isBitSize (i : IntKind) : IsBitSize i.parseBits := by
  cases i <;> simp [IntKind.parseBits, IsBitSize]

theorem wrapSigned_of_inRange (w : Nat) (hw : IsBitSize w) (z : Int) (hz : InRange w z) :
    wrapSigned w z = z := by
  unfold InRange at hz
  unfold wrapSigned
  rcases hw with rfl | rfl | rfl | rfl <;> norm_num at hz ⊢ <;> omega

theorem wrapSigned_intSize (R : Runtime) (z : Int) (hz : InRange 32 z) :
    wrapSigned R.IntSize z = z := by
  rcases R.IntSize_ok with h | h
  · rw [h]; exact wrapSigned_of_inRange 32 (by simp [IsBitSize]) z hz
  · rw [h]
    exact wrapSigned_of_inRange 64 (by simp [IsBitSize]) z
      (inRange_64_of_bitSize 32 (by simp [IsBitSize]) z hz)

theorem isDecimal_ne_nil (t : Bytes) (z : Int) (h : IsDecimal t z) : t ≠ [] := by
  obtain ⟨ds, hds, h | h | h⟩ := h
  · rw [h.1]; exact hds.1
  · rw [h.1]; exact List.cons_ne_nil _ _
  · rw [h.1]; exact List.cons_ne_nil _ _

theorem isDecimal_ne_null (t : Bytes) (z : Int) (h : IsDecimal t z) : t ≠ "null".goBytes := by
  obtain ⟨ds, hds, h | h | h⟩ := h
  · rw [h.1]
    rintro rfl
    exact absurd (hds.2 110 (by decide)) (by decide)
  · rw [h.1]
    intro h0
    have := (List.cons.inj h0).1
    revert this; decide
  · rw [h.1]
    intro h0
    have := (List.cons.inj h0).1
    revert this; decide

theorem unmarshalTextInt_absent (R : Runtime) (k : Kind) (t : Bytes) (c : Nullable k)
    (h : t = [] ∨ t = "null".goBytes) :
    unmarshalTextInt R k t c = (⟨false, c.Value⟩, none) := by
  simp only [unmarshalTextInt, h, if_true]

theorem UnmarshalText_sint (R : Runtime) (i : IntKind) (c : Nullable (.sint i)) (t : Bytes) :
    UnmarshalText R (.sint i) c t = unmarshalTextInt R (.sint i) t c := by
  simp only [UnmarshalText, Kind.textUnmarshaler]

theorem unmarshalTextInt_ok (R : Runtime) (i : IntKind) (c : Nullable (.sint i)) (t : Bytes)
    (z : Int) (h1 : t ≠ []) (h2 : t ≠ "null".goBytes)
    (hp : ParseInt R.IntSize t i.parseBits = (z, none)) (hz : InRange i.parseBits z) :
    unmarshalTextInt R (.sint i) t c = (⟨true, z⟩, none) := by
  have hw := wrapSigned_of_inRange i.parseBits (parseBits_isBitSize i) z hz
  cases i
  case int =>
    simp only [IntKind.parseBits] at hp hz
    simp only [unmarshalTextInt, h1, h2, or_self, if_false, hp, wrapSigned_intSize R z hz]
  all_goals
    simp only [IntKind.parseBits] at hp hz hw
    simp only [unmarshalTextInt, h1, h2, or_self, if_false, hp, hw]

theorem unmarshalTextInt_err (R : Runtime) (i : IntKind) (c : Nullable (.sint i)) (t : Bytes)
    (e : NumError) (h1 : t ≠ []) (h2 : t ≠ "null".goBytes)
    (hp : (ParseInt R.IntSize t i.parseBits).2 = some e) :
    unmarshalTextInt R (.sint i) t c =
      (c, some (.fmtErrorfW "null: couldn't unmarshal text: ".goBytes (.numError e))) := by
  cases i <;>
    simp only [IntKind.parseBits] at hp <;>
    simp only [unmarshalTextInt, h1, h2, or_self, if_false, hp]

theorem not_isDigits_sign (c : UInt8) (ds : Bytes) (hc : c = 43 ∨ c = 45) :
    ¬ IsDigits (c :: ds) := by
  intro h
  have := digit_ne_sign c (h.2 c (List.mem_cons_self _ _))
  rcases hc with hc | hc
  · exact this.1 hc
  · exact this.2 hc

theorem isDecimal_unique (t : Bytes) (z z' : Int) (h : IsDecimal t z) (h' : IsDecimal t z') :
    z = z' := by
  obtain ⟨ds, hds, h⟩ := h
  obtain ⟨ds', hds', h'⟩ := h'
  rcases h with ⟨rfl, rfl⟩ | ⟨rfl, rfl⟩ | ⟨rfl, rfl⟩
  · rcases h' with ⟨e, rfl⟩ | ⟨e, rfl⟩ | ⟨e, rfl⟩
    · rw [e]
    · rw [e] at hds; exact absurd hds (not_isDigits_sign 43 ds' (Or.inl rfl))
    · rw [e] at hds; exact absurd hds (not_isDigits_sign 45 ds' (Or.inr rfl))
  · rcases h' with ⟨e, rfl⟩ | ⟨e, rfl⟩ | ⟨e, rfl⟩
    · rw [← e] at hds'; exact absurd hds' (not_isDigits_sign 43 ds (Or.inl rfl))
    · rw [(List.cons.inj e).2]
    · exact absurd (List.cons.inj e).1 (by decide)
  · rcases h' with ⟨e, rfl⟩ | ⟨e, rfl⟩ | ⟨e, rfl⟩
    · rw [← e] at hds'; exact absurd hds' (not_isDigits_sign 45 ds (Or.inr rfl))
    · exact absurd (List.cons.inj e).1 (by decide)
    · rw [(List.cons.inj e).2]

theorem unmarshal_sint_value (R : Runtime) (i : IntKind) (c : Nullable (.sint i)) (t : Bytes)
    (z : Int) (hd : IsDecimal t z) (hz : InRange i.parseBits z) :
    UnmarshalText R (.sint i) c t = (⟨true, z⟩, none) := by
  rw [UnmarshalText_sint]
  exact unmarshalTextInt_ok R i c t z (isDecimal_ne_nil t z hd) (isDecimal_ne_null t z hd)
    (ParseInt_ok R.IntSize t i.parseBits z (parseBits_isBitSize i) hd hz) hz

theorem unmarshal_sint_fail (R : Runtime) (i : IntKind) (c : Nullable (.sint i)) (t : Bytes)
    (h1 : t ≠ []) (h2 : t ≠ "null".goBytes)
    (h : ¬ ∃ z, IsDecimal t z ∧ InRange i.parseBits z) :
    ∃ e, UnmarshalText R (.sint i) c t = (c, some e) := by
  rw [UnmarshalText_sint]
  cases hp : (ParseInt R.IntSize t i.parseBits).2 with
  | none => exact absurd (ParseInt_none R.IntSize t i.parseBits (parseBits_isBitSize i) hp) h
  | some e => exact ⟨_, unmarshalTextInt_err R i c t e h1 h2 hp⟩

theorem unmarshal_sint_iff (R : Runtime) (i : IntKind) (c : Nullable (.sint i)) (t : Bytes)
    (h1 : t ≠ []) (h2 : t ≠ "null".goBytes) :
    (UnmarshalText R (.sint i) c t).2 = none ↔ ∃ z, IsDecimal t z ∧ InRange i.parseBits z := by
  constructor
  · intro h
    by_contra hn
    obtain ⟨e, he⟩ := unmarshal_sint_fail R i c t h1 h2 hn
    rw [he] at h
    exact absurd h (by simp)
  · rintro ⟨z, hd, hz⟩
    rw [unmarshal_sint_value R i c t z hd hz]

theorem MarshalText_sint (R : Runtime) (i : IntKind) (v : Int) :
    MarshalText R (.sint i) ⟨true, v⟩ = (FormatInt v, none) := by
  cases i <;> simp [MarshalText, Kind.textMarshaler, marshalTextInt]

theorem MarshalText_bool (R : Runtime) (v : Bool) :
    MarshalText R .bool ⟨true, v⟩ = (if v then "true".goBytes else "false".goBytes, none) := by
  cases v <;> simp [MarshalText, Kind.textMarshaler, marshalTextBool]

theorem UnmarshalText_bool (R : Runtime) (c : Nullable .bool) (t : Bytes) :
    UnmarshalText R .bool c t = unmarshalTextBool t c := by
  simp only [UnmarshalText, Kind.textUnmarshaler]

theorem bits_eq_parseBits (R : Runtime) (i : IntKind) (hi : i ≠ .int) :
    i.bits R = i.parseBits := by
  cases i <;> first | rfl | exact absurd rfl hi

theorem inRange_64_of_bits (R : Runtime) (i : IntKind) (v : Int) (h : InRange (i.bits R) v) :
    InRange 64 v := by
  cases i
  case int =>
    simp only [IntKind.bits] at h
    rcases R.IntSize_ok with e | e
    · rw [e] at h; exact inRange_64_of_bitSize 32 (by simp [IsBitSize]) v h
    · rw [e] at h; exact h
  case int8 => exact inRange_64_of_bitSize 8 (by simp [IsBitSize]) v h
  case int16 => exact inRange_64_of_bitSize 16 (by simp [IsBitSize]) v h
  case int32 => exact inRange_64_of_bitSize 32 (by simp [IsBitSize]) v h
  case int64 => exact h

theorem isDecimal_head (c : UInt8) (rest : Bytes) (z : Int) (h : IsDecimal (c :: rest) z) :
    IsDigit c ∨ c = 43 ∨ c = 45 := by
  obtain ⟨ds, hds, h | h | h⟩ := h
  · left
    rw [← h.1] at hds
    exact hds.2 c (List.mem_cons_self _ _)
  · right; left; exact (List.cons.inj h.1).1
  · right; right; exact (List.cons.inj h.1).1

theorem isDecimal_of_digits (ds : Bytes) (h : IsDigits ds) : IsDecimal ds (decimalValue ds) :=
  ⟨ds, h, Or.inl ⟨rfl, rfl⟩⟩

theorem isDecimal_of_minus (ds : Bytes) (h : IsDigits ds) :
    IsDecimal (45 :: ds) (-(decimalValue ds : Int)) :=
  ⟨ds, h, Or.inr (Or.inr ⟨rfl, rfl⟩)⟩

theorem unmarshal_sint_fail_of (R : Runtime) (i : IntKind) (c : Nullable (.sint i)) (t : Bytes)
    (z : Int) (hd : IsDecimal t z) (hz : ¬ InRange i.parseBits z) :
    (UnmarshalText R (.sint i) c t).2 ≠ none := by
  intro h
  obtain ⟨z', hd', hz'⟩ :=
    (unmarshal_sint_iff R i c t (isDecimal_ne_nil t z hd) (isDecimal_ne_null t z hd)).mp h
  rw [isDecimal_unique t z z' hd hd'] at hz
  exact hz hz'

theorem unmarshal_sint_fail_head (R : Runtime) (i : IntKind) (c : Nullable (.sint i))
    (b : UInt8) (rest : Bytes) (h2 : b :: rest ≠ "null".goBytes)
    (hb : ¬ (IsDigit b ∨ b = 43 ∨ b = 45)) :
    (UnmarshalText R (.sint i) c (b :: rest)).2 ≠ none := by
  intro h
  obtain ⟨z, hd, _⟩ := (unmarshal_sint_iff R i c _ (List.cons_ne_nil _ _) h2).mp h
  exact hb (isDecimal_head b rest z hd)

theorem unmarshalTextBool_cases (c : Nullable .bool) (t : Bytes) :
    (t = [] ∨ t = "null".goBytes) ∧ unmarshalTextBool t c = (⟨false, c.Value⟩, none) ∨
    t = "true".goBytes ∧ unmarshalTextBool t c = (⟨true, true⟩, none) ∨
    t = "false".goBytes ∧ unmarshalTextBool t c = (⟨true, false⟩, none) ∨
    (t ≠ [] ∧ t ≠ "null".goBytes ∧ t ≠ "true".goBytes ∧ t ≠ "false".goBytes) ∧
      unmarshalTextBool t c =
        (c, some (.errorsNew ("null: invalid input for UnmarshalText:".goBytes ++ t))) := by
  by_cases h0 : t = [] ∨ t = "null".goBytes
  · left
    exact ⟨h0, by simp only [unmarshalTextBool, h0, if_true]⟩
  · right
    by_cases ht : t = "true".goBytes
    · left
      refine ⟨ht, ?_⟩
      subst ht
      rfl
    · right
      by_cases hf : t = "false".goBytes
      · left
        refine ⟨hf, ?_⟩
        subst hf
        rfl
      · right
        have h0' := not_or.mp h0
        exact ⟨⟨h0'.1, h0'.2, ht, hf⟩, by simp only [unmarshalTextBool, h0, ht, hf, if_false]⟩

theorem unmarshalTextBool_fail (c : Nullable .bool) (t : Bytes) (h1 : t ≠ [])
    (h2 : t ≠ "null".goBytes) (h3 : t ≠ "true".goBytes) (h4 : t ≠ "false".goBytes) :
    (unmarshalTextBool t c).2 ≠ none := by
  rcases unmarshalTextBool_cases c t with h | h | h | h
  · exact absurd h.1 (not_or.mpr ⟨h1, h2⟩)
  · exact absurd h.1 h3
  · exact absurd h.1 h4
  · rw [h.2]; simp

/-! ## The properties -/

/-- C1: round trip for the fixed-width kinds. For bool and for int8, int16,
int32 and int64, for every value `v` of the kind and every prior state `c` of
the target, `MarshalText` on a container holding `v` returns no error, and
`UnmarshalText` on its output succeeds and leaves the target with
`HasValue = true` and `Value = v`. -/
theorem roundtrip_fixed_width (R : Runtime) :
    (∀ (v : Bool) (c : Nullable .bool),
      (MarshalText R .bool ⟨true, v⟩).2 = none ∧
      UnmarshalText R .bool c (MarshalText R .bool ⟨true, v⟩).1 = (⟨true, v⟩, none)) ∧
    (∀ (i : IntKind) (v : Int) (c : Nullable (.sint i)), i ≠ .int → InRange (i.bits R) v →
      (MarshalText R (.sint i) ⟨true, v⟩).2 = none ∧
      UnmarshalText R (.sint i) c (MarshalText R (.sint i) ⟨true, v⟩).1 = (⟨true, v⟩, none)) := by
  constructor
  · intro v c
    rw [MarshalText_bool, UnmarshalText_bool]
    cases v <;> exact ⟨rfl, rfl⟩
  · intro i v c hi hv
    rw [MarshalText_sint]
    refine ⟨rfl, ?_⟩
    rw [bits_eq_parseBits R i hi] at hv
    have h64 := inRange_64_of_bitSize i.parseBits (parseBits_isBitSize i) v hv
    exact unmarshal_sint_value R i c _ v (FormatInt_isDecimal v h64) hv

/-- Witness of C1: the int8 value -128 decoded into an absent container. -/
theorem roundtrip_fixed_width_witness :
    IntKind.int8 ≠ IntKind.int ∧ InRange (IntKind.int8.bits runtime64) (-128) ∧
    UnmarshalText runtime64 (.sint .int8) ⟨false, 0⟩
      (MarshalText runtime64 (.sint .int8) ⟨true, -128⟩).1 = (⟨true, -128⟩, none) :=
  ⟨by decide, by decide,
    ((roundtrip_fixed_width runtime64).2 .int8 (-128) ⟨false, 0⟩ (by decide) (by decide)).2⟩

/-- C2, as stated, fails: on a 64-bit platform the int value 2^31 is encoded
as "2147483648", and decoding that text into an int container returns an error
and leaves the container as it was. -/
theorem roundtrip_int_counterexample :
    runtime64.IntSize = 64 ∧ InRange 64 2147483648 ∧
    MarshalText runtime64 (.sint .int) ⟨true, 2147483648⟩ = ("2147483648".goBytes, none) ∧
    UnmarshalText runtime64 (.sint .int) ⟨false, 0⟩ "2147483648".goBytes =
      (⟨false, 0⟩, some (.fmtErrorfW "null: couldn't unmarshal text: ".goBytes
        (.numError ⟨"ParseInt".goBytes, "2147483648".goBytes, StrconvErr.ErrRange⟩))) := by
  decide

/-- C2, amended: on a platform whose int is 64 bits wide, for every int value
`v`, `MarshalText` returns no error; when `v` lies in -2^31 .. 2^31-1,
`UnmarshalText` on the output succeeds and leaves the target with
`HasValue = true` and `Value = v`; for every other `v` it returns an error. -/
theorem roundtrip_int_within_32_bits (R : Runtime) (v : Int) (c : Nullable (.sint .int))
    (hR : R.IntSize = 64) (hv : InRange (IntKind.int.bits R) v) :
    (MarshalText R (.sint .int) ⟨true, v⟩).2 = none ∧
    (InRange 32 v →
      UnmarshalText R (.sint .int) c (MarshalText R (.sint .int) ⟨true, v⟩).1 =
        (⟨true, v⟩, none)) ∧
    (¬ InRange 32 v →
      (UnmarshalText R (.sint .int) c (MarshalText R (.sint .int) ⟨true, v⟩).1).2 ≠ none) := by
  have h64 : InRange 64 v := by
    simp only [IntKind.bits, hR] at hv
    exact hv
  rw [MarshalText_sint]
  refine ⟨rfl, ?_, ?_⟩
  · intro h32
    exact unmarshal_sint_value R .int c _ v (FormatInt_isDecimal v h64) h32
  · intro h32
    exact unmarshal_sint_fail_of R .int c _ v (FormatInt_isDecimal v h64) h32

/-- Witness of amended C2: the int value -2^31 on the 64-bit platform. -/
theorem roundtrip_int_within_32_bits_witness :
    runtime64.IntSize = 64 ∧ InRange (IntKind.int.bits runtime64) (-2147483648) ∧
    InRange 32 (-2147483648) ∧
    UnmarshalText runtime64 (.sint .int) ⟨false, 0⟩
      (MarshalText runtime64 (.sint .int) ⟨true, -2147483648⟩).1 = (⟨true, -2147483648⟩, none) :=
  ⟨rfl, by decide, by decide,
    (roundtrip_int_within_32_bits runtime64 (-2147483648) ⟨false, 0⟩ rfl (by decide)).2.1
      (by decide)⟩

/-- C3: integer width enforcement. For int8, int16, int32 and int64 (width
`w`) and every text `t` other than "" and "null", `UnmarshalText` succeeds
exactly when `t` is an optional sign followed by one or more decimal digits
whose value `z` satisfies -2^(w-1) <= z <= 2^(w-1)-1, and then the container
has `HasValue = true` and `Value = z`, with no wrap-around. For int8, "127" and
"-128" succeed with those values, "128" and "-129" fail. -/
theorem int_width_enforcement (R : Runtime) (i : IntKind) (c : Nullable (.sint i)) (t : Bytes)
    (hi : i ≠ .int) (h1 : t ≠ []) (h2 : t ≠ "null".goBytes) :
    ((UnmarshalText R (.sint i) c t).2 = none ↔ ∃ z, IsDecimal t z ∧ InRange (i.bits R) z) ∧
    (∀ z, IsDecimal t z → InRange (i.bits R) z →
      UnmarshalText R (.sint i) c t = (⟨true, z⟩, none)) ∧
    (∀ c8 : Nullable (.sint .int8),
      UnmarshalText R (.sint .int8) c8 "127".goBytes = (⟨true, 127⟩, none) ∧
      UnmarshalText R (.sint .int8) c8 "-128".goBytes = (⟨true, -128⟩, none) ∧
      (UnmarshalText R (.sint .int8) c8 "128".goBytes).2 ≠ none ∧
      (UnmarshalText R (.sint .int8) c8 "-129".goBytes).2 ≠ none) := by
  rw [bits_eq_parseBits R i hi]
  refine ⟨unmarshal_sint_iff R i c t h1 h2, fun z hd hz => unmarshal_sint_value R i c t z hd hz,
    fun c8 => ⟨?_, ?_, ?_, ?_⟩⟩
  · exact unmarshal_sint_value R .int8 c8 _ 127
      (isDecimal_of_digits "127".goBytes (by decide)) (by decide)
  · exact unmarshal_sint_value R .int8 c8 _ (-128)
      (isDecimal_of_minus "128".goBytes (by decide)) (by decide)
  · exact unmarshal_sint_fail_of R .int8 c8 _ 128
      (isDecimal_of_digits "128".goBytes (by decide)) (by decide)
  · exact unmarshal_sint_fail_of R .int8 c8 _ (-129)
      (isDecimal_of_minus "129".goBytes (by decide)) (by decide)

/-- Witness of C3: the text "+32767" decoded into an int16 container. -/
theorem int_width_enforcement_witness :
    IntKind.int16 ≠ IntKind.int ∧ "+32767".goBytes ≠ [] ∧ "+32767".goBytes ≠ "null".goBytes ∧
    UnmarshalText runtime64 (.sint .int16) ⟨false, 0⟩ "+32767".goBytes = (⟨true, 32767⟩, none) :=
  ⟨by decide, by decide, by decide,
    (int_width_enforcement runtime64 .int16 ⟨false, 0⟩ "+32767".goBytes
      (by decide) (by decide) (by decide)).2.1 32767
      ⟨"32767".goBytes, by decide, Or.inr (Or.inl ⟨rfl, by decide⟩)⟩ (by decide)⟩

/-- C4: the int kind is range-checked at 32 bits when decoding, whatever the
platform. For every text `t` other than "" and "null", `UnmarshalText` on an
int container succeeds exactly when `t` is a base-10 signed integer whose
value `z` lies in -2^31 .. 2^31-1, and then `HasValue = true` and `Value = z`;
"2147483647" succeeds and "2147483648" fails. -/
theorem int_checked_at_32_bits (R : Runtime) (c : Nullable (.sint .int)) (t : Bytes)
    (h1 : t ≠ []) (h2 : t ≠ "null".goBytes) :
    ((UnmarshalText R (.sint .int) c t).2 = none ↔ ∃ z, IsDecimal t z ∧ InRange 32 z) ∧
    (∀ z, IsDecimal t z → InRange 32 z →
      UnmarshalText R (.sint .int) c t = (⟨true, z⟩, none)) ∧
    UnmarshalText R (.sint .int) c "2147483647".goBytes = (⟨true, 2147483647⟩, none) ∧
    (UnmarshalText R (.sint .int) c "2147483648".goBytes).2 ≠ none := by
  refine ⟨unmarshal_sint_iff R .int c t h1 h2,
    fun z hd hz => unmarshal_sint_value R .int c t z hd hz, ?_, ?_⟩
  · exact unmarshal_sint_value R .int c _ 2147483647
      (isDecimal_of_digits "2147483647".goBytes (by decide)) (by decide)
  · exact unmarshal_sint_fail_of R .int c _ 2147483648
      (isDecimal_of_digits "2147483648".goBytes (by decide)) (by decide)

/-- Witness of C4: the text "-2147483648" decoded into an int container. -/
theorem int_checked_at_32_bits_witness :
    "-2147483648".goBytes ≠ [] ∧ "-2147483648".goBytes ≠ "null".goBytes ∧
    UnmarshalText runtime64 (.sint .int) ⟨true, 7⟩ "-2147483648".goBytes =
      (⟨true, -2147483648⟩, none) :=
  ⟨by decide, by decide,
    (int_checked_at_32_bits runtime64 ⟨true, 7⟩ "-2147483648".goBytes
      (by decide) (by decide)).2.1 (-2147483648)
      ⟨"2147483648".goBytes, by decide, Or.inr (Or.inr ⟨rfl, by decide⟩)⟩ (by decide)⟩

/-- C5: integer encoding is the minimal decimal form. For every signed-integer
kind and every value `v` of the kind, `MarshalText` on a container holding `v`
returns no error and the text `ds`, or `-` followed by `ds` when `v` is
negative, where `ds` is a non-empty digit string of value `|v|` that is "0"
for zero and has no leading zero otherwise; the text holds no `+`. For the
int32 value 42 the text is "42". -/
theorem marshal_int_minimal (R : Runtime) (i : IntKind) (v : Int)
    (hv : InRange (i.bits R) v) :
    (∃ ds, MarshalText R (.sint i) ⟨true, v⟩ = (if v < 0 then 45 :: ds else ds, none) ∧
      IsDigits ds ∧ decimalValue ds = v.natAbs ∧
      (v = 0 → ds = "0".goBytes) ∧ (v ≠ 0 → ds.head? ≠ some 48)) ∧
    (43 : UInt8) ∉ (MarshalText R (.sint i) ⟨true, v⟩).1 ∧
    MarshalText R (.sint .int32) ⟨true, 42⟩ = ("42".goBytes, none) := by
  obtain ⟨ds, hds, hval, hmin, hfmt⟩ := FormatInt_spec v (inRange_64_of_bits R i v hv)
  have hplus : (43 : UInt8) ∉ ds := fun h => absurd (hds.2 43 h) (by decide)
  refine ⟨⟨ds, ?_, hds, hval, ?_, ?_⟩, ?_, ?_⟩
  · rw [MarshalText_sint, hfmt]
  · intro h0
    exact hmin.1 (by omega)
  · intro h0
    exact hmin.2 (by omega)
  · rw [MarshalText_sint, hfmt]
    by_cases hneg : v < 0
    · simp only [hneg, if_true, List.mem_cons, not_or]
      exact ⟨by decide, hplus⟩
    · simp only [hneg, if_false]
      exact hplus
  · rw [MarshalText_sint]
    decide

/-- Witness of C5: the int64 value -2^63. -/
theorem marshal_int_minimal_witness :
    InRange (IntKind.int64.bits runtime64) (-9223372036854775808) ∧
    (43 : UInt8) ∉ (MarshalText runtime64 (.sint .int64) ⟨true, -9223372036854775808⟩).1 :=
  ⟨by decide, (marshal_int_minimal runtime64 .int64 (-9223372036854775808) (by decide)).2.1⟩

/-- C6: boolean literal strictness. For every text `t` other than "" and
"null", `UnmarshalText` on a bool container succeeds exactly when `t` is
"true" or "false", and then `HasValue = true` and `Value` is that boolean;
every other text returns the error whose message is
"null: invalid input for UnmarshalText:" followed by `t`, so the message
contains `t`. "True", "TRUE" and "1" are such texts. -/
theorem bool_literal_strictness (R : Runtime) (c : Nullable .bool) (t : Bytes)
    (h1 : t ≠ []) (h2 : t ≠ "null".goBytes) :
    ((UnmarshalText R .bool c t).2 = none ↔ t = "true".goBytes ∨ t = "false".goBytes) ∧
    (t = "true".goBytes → UnmarshalText R .bool c t = (⟨true, true⟩, none)) ∧
    (t = "false".goBytes → UnmarshalText R .bool c t = (⟨true, false⟩, none)) ∧
    (t ≠ "true".goBytes → t ≠ "false".goBytes →
      (UnmarshalText R .bool c t).2 =
          some (.errorsNew ("null: invalid input for UnmarshalText:".goBytes ++ t)) ∧
        t <:+: "null: invalid input for UnmarshalText:".goBytes ++ t) ∧
    (UnmarshalText R .bool c "True".goBytes).2 ≠ none ∧
    (UnmarshalText R .bool c "TRUE".goBytes).2 ≠ none ∧
    (UnmarshalText R .bool c "1".goBytes).2 ≠ none := by
  rw [UnmarshalText_bool]
  refine ⟨?_, ?_, ?_, ?_, ?_, ?_, ?_⟩
  · rcases unmarshalTextBool_cases c t with h | h | h | h
    · exact absurd h.1 (not_or.mpr ⟨h1, h2⟩)
    · rw [h.2]; exact ⟨fun _ => Or.inl h.1, fun _ => rfl⟩
    · rw [h.2]; exact ⟨fun _ => Or.inr h.1, fun _ => rfl⟩
    · rw [h.2]
      constructor
      · intro h0; exact absurd h0 (by simp)
      · rintro (h0 | h0)
        · exact absurd h0 h.1.2.2.1
        · exact absurd h0 h.1.2.2.2
  · rintro rfl; rfl
  · rintro rfl; rfl
  · intro ht hf
    rcases unmarshalTextBool_cases c t with h | h | h | h
    · exact absurd h.1 (not_or.mpr ⟨h1, h2⟩)
    · exact absurd h.1 ht
    · exact absurd h.1 hf
    · rw [h.2]
      exact ⟨rfl, List.suffix_append _ _ |>.isInfix⟩
  · exact unmarshalTextBool_fail c _ (by decide) (by decide) (by decide) (by decide)
  · rw [UnmarshalText_bool]
    exact unmarshalTextBool_fail c _ (by decide) (by decide) (by decide) (by decide)
  · rw [UnmarshalText_bool]
    exact unmarshalTextBool_fail c _ (by decide) (by decide) (by decide) (by decide)

/-- Witness of C6: the text "false" decoded into a container holding true. -/
theorem bool_literal_strictness_witness :
    "false".goBytes ≠ [] ∧ "false".goBytes ≠ "null".goBytes ∧
    UnmarshalText runtime64 .bool ⟨true, true⟩ "false".goBytes = (⟨true, false⟩, none) :=
  ⟨by decide, by decide,
    (bool_literal_strictness runtime64 ⟨true, true⟩ "false".goBytes
      (by decide) (by decide)).2.2.1 rfl⟩

/-- C7: boolean encoding. For every bool container with `HasValue = true`,
`MarshalText` returns no error and exactly "true" when `Value` is true and
exactly "false" when `Value` is false. -/
theorem marshal_bool_exact (R : Runtime) :
    MarshalText R .bool ⟨true, true⟩ = ("true".goBytes, none) ∧
    MarshalText R .bool ⟨true, false⟩ = ("false".goBytes, none) ∧
    ∀ v : Bool, MarshalText R .bool ⟨true, v⟩ =
      (if v then "true".goBytes else "false".goBytes, none) :=
  ⟨MarshalText_bool R true, MarshalText_bool R false, MarshalText_bool R⟩

/-- C8: encoding absence. For every container with `HasValue = false`, of any
kind and whatever stale `Value` it holds, `MarshalText` returns zero-length
text and no error; for a kind with a custom `MarshalText` this holds whatever
that method would return, so the method is not consulted. -/
theorem marshal_absent (R : Runtime) :
    (∀ (k : Kind) (v : k.Carrier), MarshalText R k ⟨false, v⟩ = ([], none)) ∧
    (∀ (name : Bytes) (carrier : Type) (m : carrier → Bytes × Option GoError)
        (um : Option (Bytes → carrier → carrier × Option GoError)) (v : carrier),
      MarshalText R (.other ⟨name, carrier, some m, um⟩) ⟨false, v⟩ = ([], none)) :=
  ⟨fun _ _ => rfl, fun _ _ _ _ _ => rfl⟩

/-- C9: decoding absence. For every built-in scalar kind (bool, the five
integer kinds, the two float kinds) and every prior state `c`, `UnmarshalText`
with the text "" or "null" returns no error and leaves `HasValue = false`; the
`Value` field keeps what it held, and the result is the same whatever the
runtime's parser would do with the text. -/
theorem unmarshal_absent (R : Runtime) :
    (∀ c : Nullable .bool,
      UnmarshalText R .bool c [] = (⟨false, c.Value⟩, none) ∧
      UnmarshalText R .bool c "null".goBytes = (⟨false, c.Value⟩, none)) ∧
    (∀ (i : IntKind) (c : Nullable (.sint i)),
      UnmarshalText R (.sint i) c [] = (⟨false, c.Value⟩, none) ∧
      UnmarshalText R (.sint i) c "null".goBytes = (⟨false, c.Value⟩, none)) ∧
    (∀ (f : FloatKind) (c : Nullable (.float f)),
      UnmarshalText R (.float f) c [] = (⟨false, c.Value⟩, none) ∧
      UnmarshalText R (.float f) c "null".goBytes = (⟨false, c.Value⟩, none)) :=
  ⟨fun _ => ⟨rfl, rfl⟩, fun _ _ => ⟨rfl, rfl⟩, fun _ _ => ⟨rfl, rfl⟩⟩

/-- C10: absence is reached only through the exact literals. For bool and the
five integer kinds, for every text `t` and every prior state, if
`UnmarshalText` returns no error and the container ends with
`HasValue = false` then `t` is "" or "null"; "NULL", "Null" and " null" fail
for each of these kinds. -/
theorem absent_only_by_literal (R : Runtime) :
    (∀ (c : Nullable .bool) (t : Bytes),
      (UnmarshalText R .bool c t).2 = none → (UnmarshalText R .bool c t).1.HasValue = false →
        t = [] ∨ t = "null".goBytes) ∧
    (∀ (i : IntKind) (c : Nullable (.sint i)) (t : Bytes),
      (UnmarshalText R (.sint i) c t).2 = none →
        (UnmarshalText R (.sint i) c t).1.HasValue = false → t = [] ∨ t = "null".goBytes) ∧
    (∀ c : Nullable .bool,
      (UnmarshalText R .bool c "NULL".goBytes).2 ≠ none ∧
      (UnmarshalText R .bool c "Null".goBytes).2 ≠ none ∧
      (UnmarshalText R .bool c " null".goBytes).2 ≠ none) ∧
    (∀ (i : IntKind) (c : Nullable (.sint i)),
      (UnmarshalText R (.sint i) c "NULL".goBytes).2 ≠ none ∧
      (UnmarshalText R (.sint i) c "Null".goBytes).2 ≠ none ∧
      (UnmarshalText R (.sint i) c " null".goBytes).2 ≠ none) := by
  refine ⟨?_, ?_, ?_, ?_⟩
  · intro c t he hh
    rw [UnmarshalText_bool] at he hh
    rcases unmarshalTextBool_cases c t with h | h | h | h
    · exact h.1
    · rw [h.2] at hh; exact absurd hh (by simp)
    · rw [h.2] at hh; exact absurd hh (by simp)
    · rw [h.2] at he; exact absurd he (by simp)
  · intro i c t he hh
    by_contra hn
    have hn' := not_or.mp hn
    obtain ⟨z, hd, hz⟩ := (unmarshal_sint_iff R i c t hn'.1 hn'.2).mp he
    rw [unmarshal_sint_value R i c t z hd hz] at hh
    exact absurd hh (by simp)
  · intro c
    rw [UnmarshalText_bool, UnmarshalText_bool, UnmarshalText_bool]
    exact ⟨unmarshalTextBool_fail c _ (by decide) (by decide) (by decide) (by decide),
      unmarshalTextBool_fail c _ (by decide) (by decide) (by decide) (by decide),
      unmarshalTextBool_fail c _ (by decide) (by decide) (by decide) (by decide)⟩
  · intro i c
    exact ⟨unmarshal_sint_fail_head R i c 78 "ULL".goBytes (by decide) (by decide),
      unmarshal_sint_fail_head R i c 78 "ull".goBytes (by decide) (by decide),
      unmarshal_sint_fail_head R i c 32 "null".goBytes (by decide) (by decide)⟩

/-- Witness of C10: the text "null" decoded into an int8 container holding 5. -/
theorem absent_only_by_literal_witness :
    (UnmarshalText runtime64 (.sint .int8) ⟨true, 5⟩ "null".goBytes).2 = none ∧
    (UnmarshalText runtime64 (.sint .int8) ⟨true, 5⟩ "null".goBytes).1.HasValue = false ∧
    ("null".goBytes = [] ∨ "null".goBytes = "null".goBytes) :=
  ⟨by decide, by decide,
    (absent_only_by_literal runtime64).2.1 .int8 ⟨true, 5⟩ "null".goBytes
      (by decide) (by decide)⟩

/-! ## Failure, success from two states, and kinds outside the built-in ones -/

theorem unmarshal_sint_absent (R : Runtime) (i : IntKind) (c : Nullable (.sint i)) (t : Bytes)
    (h : t = [] ∨ t = "null".goBytes) :
    UnmarshalText R (.sint i) c t = (⟨false, c.Value⟩, none) := by
  rw [UnmarshalText_sint]
  exact unmarshalTextInt_absent R (.sint i) t c h

theorem unmarshal_sint_atomic (R : Runtime) (i : IntKind) (c : Nullable (.sint i)) (t : Bytes)
    (h : (UnmarshalText R (.sint i) c t).2 ≠ none) :
    (UnmarshalText R (.sint i) c t).1 = c := by
  by_cases h0 : t = [] ∨ t = "null".goBytes
  · rw [unmarshal_sint_absent R i c t h0] at h
    exact absurd rfl h
  · have h0' := not_or.mp h0
    by_cases hz : ∃ z, IsDecimal t z ∧ InRange i.parseBits z
    · exact absurd ((unmarshal_sint_iff R i c t h0'.1 h0'.2).mpr hz) h
    · obtain ⟨e, he⟩ := unmarshal_sint_fail R i c t h0'.1 h0'.2 hz
      rw [he]

theorem unmarshalTextBool_atomic (c : Nullable .bool) (t : Bytes)
    (h : (unmarshalTextBool t c).2 ≠ none) : (unmarshalTextBool t c).1 = c := by
  rcases unmarshalTextBool_cases c t with h0 | h0 | h0 | h0
  · rw [h0.2] at h; exact absurd rfl h
  · rw [h0.2] at h; exact absurd rfl h
  · rw [h0.2] at h; exact absurd rfl h
  · rw [h0.2]

theorem unmarshal_sint_success (R : Runtime) (i : IntKind) (c : Nullable (.sint i)) (t : Bytes)
    (h : (UnmarshalText R (.sint i) c t).2 = none) :
    (t = [] ∨ t = "null".goBytes) ∨
      ∃ z, ∀ c' : Nullable (.sint i), UnmarshalText R (.sint i) c' t = (⟨true, z⟩, none) := by
  by_cases h0 : t = [] ∨ t = "null".goBytes
  · exact Or.inl h0
  · right
    have h0' := not_or.mp h0
    obtain ⟨z, hd, hz⟩ := (unmarshal_sint_iff R i c t h0'.1 h0'.2).mp h
    exact ⟨z, fun c' => unmarshal_sint_value R i c' t z hd hz⟩

theorem unmarshalTextBool_success (c : Nullable .bool) (t : Bytes)
    (h : (unmarshalTextBool t c).2 = none) :
    (t = [] ∨ t = "null".goBytes) ∨
      ∃ v, ∀ c' : Nullable .bool, unmarshalTextBool t c' = (⟨true, v⟩, none) := by
  rcases unmarshalTextBool_cases c t with h0 | h0 | h0 | h0
  · exact Or.inl h0.1
  · right
    refine ⟨true, fun c' => ?_⟩
    rw [h0.1]; rfl
  · right
    refine ⟨false, fun c' => ?_⟩
    rw [h0.1]; rfl
  · rw [h0.2] at h
    exact absurd h (by simp)

theorem unmarshalTextBool_absent (c : Nullable .bool) (t : Bytes)
    (h : t = [] ∨ t = "null".goBytes) :
    unmarshalTextBool t c = (⟨false, c.Value⟩, none) := by
  simp only [unmarshalTextBool, h, if_true]

theorem UnmarshalText_other (R : Runtime) (u : UserType) (c : Nullable (.other u)) (t : Bytes) :
    UnmarshalText R (.other u) c t =
      match u.UnmarshalText with
      | some g => (⟨c.HasValue, (g t c.Value).1⟩, (g t c.Value).2)
      | none => (c, some (.errorsNew ("type ".goBytes ++ u.name ++ " unmarshal".goBytes))) := by
  simp only [UnmarshalText, Kind.textUnmarshaler]
  cases u.UnmarshalText <;> rfl

theorem MarshalText_other (R : Runtime) (u : UserType) (v : u.carrier) :
    MarshalText R (.other u) ⟨true, v⟩ =
      match u.MarshalText with
      | some f => f v
      | none =>
        ([], some (.errorsNew
          ("type ".goBytes ++ u.name ++ " cannot be marshalled to text".goBytes))) := by
  simp only [MarshalText, Kind.textMarshaler]
  cases u.MarshalText <;> rfl

/-- C13: a custom conversion overrides encoding. For a kind with a
`MarshalText` method `f` and every container with `HasValue = true` and value
`v`, `MarshalText` returns exactly the pair of text and error that `f` returns
on `v`; so it does when the values of the kind are integers, where the
built-in rule is not applied: the `level` value 1 is written "high", the int
value 1 is written "1". -/
theorem marshal_custom_overrides (R : Runtime) :
    (∀ (name : Bytes) (carrier : Type) (f : carrier → Bytes × Option GoError)
        (um : Option (Bytes → carrier → carrier × Option GoError)) (v : carrier),
      MarshalText R (.other ⟨name, carrier, some f, um⟩) ⟨true, v⟩ = f v) ∧
    (∀ (name : Bytes) (f : Int → Bytes × Option GoError)
        (um : Option (Bytes → Int → Int × Option GoError)) (v : Int),
      MarshalText R (.other ⟨name, Int, some f, um⟩) ⟨true, v⟩ = f v) ∧
    MarshalText R (.other levelType) ⟨true, (1 : Int)⟩ = ("high".goBytes, none) ∧
    MarshalText R (.sint .int) ⟨true, 1⟩ = ("1".goBytes, none) := by
  refine ⟨?_, ?_, ?_, ?_⟩
  · intro name carrier f um v
    exact MarshalText_other R ⟨name, carrier, some f, um⟩ v
  · intro name f um v
    exact MarshalText_other R ⟨name, Int, some f, um⟩ v
  · rw [MarshalText_other]; rfl
  · rw [MarshalText_sint]; decide

/-- C14: a custom conversion overrides decoding. For a kind with an
`UnmarshalText` method `g`, for every text `t` and every prior state `c`,
`UnmarshalText` returns exactly the error `g` returns on `t` and leaves in
`Value` what `g` left there; this holds for "" and "null" as for any text, no
absence check is applied: decoding "null" into a `level` container returns the
method's error. -/
theorem unmarshal_custom_overrides (R : Runtime) :
    (∀ (name : Bytes) (carrier : Type) (m : Option (carrier → Bytes × Option GoError))
        (g : Bytes → carrier → carrier × Option GoError)
        (c : Nullable (.other ⟨name, carrier, m, some g⟩)) (t : Bytes),
      (UnmarshalText R (.other ⟨name, carrier, m, some g⟩) c t).2 = (g t c.Value).2 ∧
      (UnmarshalText R (.other ⟨name, carrier, m, some g⟩) c t).1.Value = (g t c.Value).1) ∧
    (∀ (name : Bytes) (carrier : Type) (m : Option (carrier → Bytes × Option GoError))
        (g : Bytes → carrier → carrier × Option GoError)
        (c : Nullable (.other ⟨name, carrier, m, some g⟩)),
      UnmarshalText R (.other ⟨name, carrier, m, some g⟩) c [] =
          (⟨c.HasValue, (g [] c.Value).1⟩, (g [] c.Value).2) ∧
      UnmarshalText R (.other ⟨name, carrier, m, some g⟩) c "null".goBytes =
          (⟨c.HasValue, (g "null".goBytes c.Value).1⟩, (g "null".goBytes c.Value).2)) ∧
    UnmarshalText R (.other levelType) ⟨true, (1 : Int)⟩ "null".goBytes =
      (⟨true, (1 : Int)⟩, some (.errorsNew "level: unknown word null".goBytes)) := by
  refine ⟨?_, ?_, ?_⟩
  · intro name carrier m g c t
    rw [UnmarshalText_other R ⟨name, carrier, m, some g⟩ c t]
    exact ⟨rfl, rfl⟩
  · intro name carrier m g c
    exact ⟨UnmarshalText_other R ⟨name, carrier, m, some g⟩ c [],
      UnmarshalText_other R ⟨name, carrier, m, some g⟩ c "null".goBytes⟩
  · rw [UnmarshalText_other]; rfl

/-- C15, as stated, fails: decoding "null" into two int8 containers that hold
5 and 7 succeeds on both and leaves 5 in one and 7 in the other, so the
results differ in `Value`. -/
theorem decode_replaces_counterexample :
    UnmarshalText runtime64 (.sint .int8) ⟨true, 5⟩ "null".goBytes = (⟨false, 5⟩, none) ∧
    UnmarshalText runtime64 (.sint .int8) ⟨true, 7⟩ "null".goBytes = (⟨false, 7⟩, none) ∧
    (UnmarshalText runtime64 (.sint .int8) ⟨true, 5⟩ "null".goBytes).1.Value ≠
      (UnmarshalText runtime64 (.sint .int8) ⟨true, 7⟩ "null".goBytes).1.Value := by
  decide

/-- C15, amended: for bool and the five integer kinds, for every text `t` and
every two prior states `c1` and `c2`, if `UnmarshalText` with `t` succeeds on
`c1` then it succeeds on `c2` and the results have the same `HasValue`; when
that is true the results are equal in both fields; when it is false (`t` is ""
or "null") each container keeps the `Value` it held before. -/
theorem decode_replaces_when_present (R : Runtime) :
    (∀ (c1 c2 : Nullable .bool) (t : Bytes), (UnmarshalText R .bool c1 t).2 = none →
      (UnmarshalText R .bool c2 t).2 = none ∧
      (UnmarshalText R .bool c1 t).1.HasValue = (UnmarshalText R .bool c2 t).1.HasValue ∧
      ((UnmarshalText R .bool c1 t).1.HasValue = true →
        (UnmarshalText R .bool c1 t).1 = (UnmarshalText R .bool c2 t).1) ∧
      ((UnmarshalText R .bool c1 t).1.HasValue = false →
        (UnmarshalText R .bool c1 t).1.Value = c1.Value ∧
        (UnmarshalText R .bool c2 t).1.Value = c2.Value)) ∧
    (∀ (i : IntKind) (c1 c2 : Nullable (.sint i)) (t : Bytes),
      (UnmarshalText R (.sint i) c1 t).2 = none →
      (UnmarshalText R (.sint i) c2 t).2 = none ∧
      (UnmarshalText R (.sint i) c1 t).1.HasValue =
        (UnmarshalText R (.sint i) c2 t).1.HasValue ∧
      ((UnmarshalText R (.sint i) c1 t).1.HasValue = true →
        (UnmarshalText R (.sint i) c1 t).1 = (UnmarshalText R (.sint i) c2 t).1) ∧
      ((UnmarshalText R (.sint i) c1 t).1.HasValue = false →
        (UnmarshalText R (.sint i) c1 t).1.Value = c1.Value ∧
        (UnmarshalText R (.sint i) c2 t).1.Value = c2.Value)) := by
  constructor
  · intro c1 c2 t h
    rw [UnmarshalText_bool] at h
    rw [UnmarshalText_bool, UnmarshalText_bool]
    rcases unmarshalTextBool_success c1 t h with h0 | ⟨v, hv⟩
    · rw [unmarshalTextBool_absent c1 t h0, unmarshalTextBool_absent c2 t h0]
      exact ⟨rfl, rfl, fun hh => absurd hh (by simp), fun _ => ⟨rfl, rfl⟩⟩
    · rw [hv c1, hv c2]
      exact ⟨rfl, rfl, fun _ => rfl, fun hh => absurd hh (by simp)⟩
  · intro i c1 c2 t h
    rcases unmarshal_sint_success R i c1 t h with h0 | ⟨z, hz⟩
    · rw [unmarshal_sint_absent R i c1 t h0, unmarshal_sint_absent R i c2 t h0]
      exact ⟨rfl, rfl, fun hh => absurd hh (by simp), fun _ => ⟨rfl, rfl⟩⟩
    · rw [hz c1, hz c2]
      exact ⟨rfl, rfl, fun _ => rfl, fun hh => absurd hh (by simp)⟩

/-- Witness of amended C15: "42" decoded into two different int8 containers. -/
theorem decode_replaces_when_present_witness :
    (UnmarshalText runtime64 (.sint .int8) ⟨true, 5⟩ "42".goBytes).2 = none ∧
    (UnmarshalText runtime64 (.sint .int8) ⟨true, 5⟩ "42".goBytes).1.HasValue = true ∧
    (UnmarshalText runtime64 (.sint .int8) ⟨true, 5⟩ "42".goBytes).1 =
      (UnmarshalText runtime64 (.sint .int8) ⟨false, 0⟩ "42".goBytes).1 :=
  ⟨by decide, by decide,
    ((decode_replaces_when_present runtime64).2 .int8 ⟨true, 5⟩ ⟨false, 0⟩ "42".goBytes
      (by decide)).2.2.1 (by decide)⟩

/-- C17: decode failure is atomic for the built-in non-float kinds. For bool
and the five integer kinds, every text `t` and every prior state `c`, if
`UnmarshalText` with `t` returns an error then the container afterwards equals
`c` in both `HasValue` and `Value`. -/
theorem unmarshal_failure_atomic (R : Runtime) :
    (∀ (c : Nullable .bool) (t : Bytes),
      (UnmarshalText R .bool c t).2 ≠ none → (UnmarshalText R .bool c t).1 = c) ∧
    (∀ (i : IntKind) (c : Nullable (.sint i)) (t : Bytes),
      (UnmarshalText R (.sint i) c t).2 ≠ none → (UnmarshalText R (.sint i) c t).1 = c) := by
  constructor
  · intro c t h
    rw [UnmarshalText_bool] at h ⊢
    exact unmarshalTextBool_atomic c t h
  · intro i c t h
    exact unmarshal_sint_atomic R i c t h

/-- Witness of C17: "128" decoded into an int8 container holding 5. -/
theorem unmarshal_failure_atomic_witness :
    (UnmarshalText runtime64 (.sint .int8) ⟨true, 5⟩ "128".goBytes).2 ≠ none ∧
    (UnmarshalText runtime64 (.sint .int8) ⟨true, 5⟩ "128".goBytes).1 = ⟨true, 5⟩ :=
  ⟨by decide,
    (unmarshal_failure_atomic runtime64).2 .int8 ⟨true, 5⟩ "128".goBytes (by decide)⟩

/-- C18: decoding through a custom conversion never touches the presence
flag. For a kind with an `UnmarshalText` method, for every text `t` and every
prior state `c`, `HasValue` after `UnmarshalText` equals `HasValue` before it;
decoding into a container with `HasValue = false` leaves `HasValue = false`,
and `MarshalText` on the result returns empty text and no error. Decoding
"high" into an absent `level` container succeeds, stores 1, and the container
still encodes as empty text. -/
theorem custom_unmarshal_keeps_flag (R : Runtime) :
    (∀ (name : Bytes) (carrier : Type) (m : Option (carrier → Bytes × Option GoError))
        (g : Bytes → carrier → carrier × Option GoError)
        (c : Nullable (.other ⟨name, carrier, m, some g⟩)) (t : Bytes),
      (UnmarshalText R (.other ⟨name, carrier, m, some g⟩) c t).1.HasValue = c.HasValue) ∧
    (∀ (name : Bytes) (carrier : Type) (m : Option (carrier → Bytes × Option GoError))
        (g : Bytes → carrier → carrier × Option GoError) (v : carrier) (t : Bytes),
      (UnmarshalText R (.other ⟨name, carrier, m, some g⟩) ⟨false, v⟩ t).1.HasValue = false ∧
      MarshalText R (.other ⟨name, carrier, m, some g⟩)
        (UnmarshalText R (.other ⟨name, carrier, m, some g⟩) ⟨false, v⟩ t).1 = ([], none)) ∧
    UnmarshalText R (.other levelType) ⟨false, (0 : Int)⟩ "high".goBytes =
      (⟨false, (1 : Int)⟩, none) ∧
    MarshalText R (.other levelType)
      (UnmarshalText R (.other levelType) ⟨false, (0 : Int)⟩ "high".goBytes).1 = ([], none) := by
  refine ⟨?_, ?_, ?_, ?_⟩
  · intro name carrier m g c t
    rw [UnmarshalText_other R ⟨name, carrier, m, some g⟩ c t]
  · intro name carrier m g v t
    rw [UnmarshalText_other R ⟨name, carrier, m, some g⟩ ⟨false, v⟩ t]
    exact ⟨rfl, rfl⟩
  · rw [UnmarshalText_other]; rfl
  · rw [UnmarshalText_other]; rfl

end nullable
